import Mathlib

/-!
Shallow embedding of `v.db.labels.py` (module `v.db.labels`): the script reads
a geometry export (one line per point, fields joined by the separator
`<--->`), an attribute table (category → row, plus the ordered column-name
list) and the parsed CLI options, and writes one block of `key: value` lines
per feature to standard output.

The external collaborators (`v.out.ascii`, `vector_db_select`, the option
parser) are modelled by their outputs: the ascii text, the column list, the
category-indexed table and the option mapping.  Python dictionaries are
modelled as association lists (`List (α × β)` with `List.lookup`); Python
runtime exceptions (`KeyError`, `IndexError`, `ValueError`, `NameError`)
become an explicit error type threaded through `Except`.

Note on partiality of output: if an exception were raised inside the
attribute loop (a missing option key or a too-short row), the Python process
would already have written the attribute lines of the current block that
precede the failing one.  `resolveLoop` below models only the complete-block
output; the failure theorems in this file all concern exceptions raised
before the first attribute line of a block is written (field indexing,
integer parsing, category lookup), where the two views coincide exactly.
-/

set_option autoImplicit false

namespace VDbLabels

/-- The Python exceptions the script can raise while processing the stream. -/
inductive PyError where
  /-- dictionary access with a missing key (`table[cat]`, `options[key]`) -/
  | keyError
  /-- sequence index out of range (`values[i]`, `row[i]`) -/
  | indexError
  /-- `int(...)` applied to a non-integer string -/
  | valueError
  /-- a variable read before any assignment -/
  | nameError
  deriving DecidableEq, Repr

/-- Line 251: `separator = '<--->'`, the horizontal separator for x, y, cat. -/
def separator : String := "<--->"

/-- The separator as a character list, for the character-level split. -/
def sepList : List Char := separator.data

/-- Lines 277: the fixed ordered list of the 16 paint-label attribute names. -/
def label_attributes_base : List String :=
  ["east", "north", "xoffset", "yoffset", "ref", "font", "color", "size",
   "width", "hcolor", "hwidth", "background", "border", "opaque", "rotate",
   "text"]

/-- Line 278: `option_label_attributes = ['reference', 'rotation']`. -/
def option_label_attributes : List String := ["reference", "rotation"]

/-- Line 279: the remapping dictionary from label-attribute name to option
name, `label_attribute_to_option`. -/
def label_attribute_to_option : List (String × String) :=
  [("ref", "reference"), ("rotate", "rotation")]

/-- Line 280: `label_attributes.extend(option_label_attributes)` — after the
extend, the list iterated per feature is the 16 base names followed by
`reference` and `rotation`. -/
def label_attributes : List String :=
  label_attributes_base ++ option_label_attributes

/-- Line 307: `label_attribute_to_option.get(attribute, attribute)` — the
option key looked up for an option-backed attribute. -/
def attributeOptionKey (attrib : String) : String :=
  (label_attribute_to_option.lookup attrib).getD attrib

/-- Lines 274-275: `for i, name in enumerate(column_names):
column_indexes[name] = i`, unrolled — the (name, index) pairs in insertion
order, starting at index `k`. -/
def indexPairs : Nat → List String → List (String × Nat)
  | _, [] => []
  | k, c :: cs => (c, k) :: indexPairs (k + 1) cs

/-- The `column_indexes` dictionary.  A Python dict keeps the last binding
written for a key, and `List.lookup` returns the first, so the pair list is
reversed. -/
def column_indexes (cols : List String) : List (String × Nat) :=
  (indexPairs 0 cols).reverse

/-- Dictionary access `column_indexes[name]`. -/
def column_index (cols : List String) (name : String) : Option Nat :=
  (column_indexes cols).lookup name

/-- Lines 294 and 304: `row[column_indexes[name]]` — a cell of the feature's
row, selected by column name; `KeyError` on a missing dict key,
`IndexError` on a too-short row. -/
def tableCell (cols row : List String) (name : String) :
    Except PyError String :=
  match column_index cols name with
  | none => .error .keyError
  | some i =>
    match row.get? i with
    | none => .error .indexError
    | some v => .ok v

/-- Lines 302-305: `for n in ['name', 'label']: if n in column_names: value =
row[column_indexes[n]]; break` — the fallback column search for `text`.
Returns `none` when neither fallback column exists (the loop body never
runs and `value` keeps its previous content). -/
def textFallback (cols row : List String) : Except PyError (Option String) :=
  if "name" ∈ cols then (tableCell cols row "name").map some
  else if "label" ∈ cols then (tableCell cols row "label").map some
  else .ok none

/-- Lines 291-308, body of `for attribute in label_attributes`: resolve one
attribute.  `value` is the current content of the Python variable `value`
(`none` while it has never been assigned); the result is its content after
the branch. -/
def resolveAttribute (cols row : List String) (east north : String)
    (opts : List (String × String)) (value : Option String)
    (attrib : String) : Except PyError (Option String) :=
  if attrib ∈ cols then (tableCell cols row attrib).map some
  else if attrib = "east" then .ok (some east)
  else if attrib = "north" then .ok (some north)
  else if attrib = "text" then
    match textFallback cols row with
    | .error e => .error e
    | .ok (some v) => .ok (some v)
    | .ok none => .ok value
  else
    match opts.lookup (attributeOptionKey attrib) with
    | none => .error .keyError
    | some v => .ok (some v)

/-- Lines 291-309: the whole attribute loop for one feature.  Returns the
`(attribute, value)` pairs written by `sys.stdout.write('...: ...')` in
order, together with the final content of `value` (which the next feature's
loop inherits).  Writing with `value` never assigned is a `NameError`. -/
def resolveLoop (cols row : List String) (east north : String)
    (opts : List (String × String)) :
    List String → Option String →
      Except PyError (List (String × String) × Option String)
  | [], v => .ok ([], v)
  | a :: rest, v =>
    match resolveAttribute cols row east north opts v a with
    | .error e => .error e
    | .ok none => .error .nameError
    | .ok (some val) =>
      match resolveLoop cols row east north opts rest (some val) with
      | .error e => .error e
      | .ok (pairs, vf) => .ok ((a, val) :: pairs, vf)

/-- One step of splitting a character list at every non-overlapping
occurrence of `sep`, scanning left to right; `acc` holds the reversed
current field.  `fuel` only bounds the recursion and is never exhausted
when it starts at the input length plus one. -/
def splitFieldsAux (sep : List Char) : Nat → List Char → List Char →
    List (List Char)
  | _, [], acc => [acc.reverse]
  | 0, s, acc => [acc.reverse ++ s]
  | Nat.succ fuel, c :: rest, acc =>
    if sep.isPrefixOf (c :: rest) then
      acc.reverse :: splitFieldsAux sep fuel ((c :: rest).drop sep.length) []
    else
      splitFieldsAux sep fuel rest (c :: acc)

/-- Line 285: `values = line.split(separator)` — Python `str.split` with a
non-empty separator string. -/
def splitFields (line : String) : List String :=
  (splitFieldsAux sepList (line.data.length + 1) line.data []).map String.mk

/-- Helper for `int(...)`: read a non-empty all-digit character list as a
natural number (Python's underscore digit grouping is not modelled; no
input of this program uses it). -/
def digitsToNat : List Char → Nat → Option Nat
  | [], acc => some acc
  | c :: cs, acc =>
    if c.isDigit then digitsToNat cs (acc * 10 + (c.toNat - '0'.toNat))
    else none

/-- Line 288: `int(values[2])` — Python `int()` on a string: surrounding
whitespace is ignored, one optional sign, then at least one digit;
otherwise `ValueError`. -/
def pyParseInt (s : String) : Option Int :=
  let t := ((s.data.dropWhile Char.isWhitespace).reverse.dropWhile
    Char.isWhitespace).reverse
  match t with
  | [] => none
  | '+' :: rest =>
    match rest with
    | [] => none
    | _ => (digitsToNat rest 0).map Int.ofNat
  | '-' :: rest =>
    match rest with
    | [] => none
    | _ => (digitsToNat rest 0).map (fun m => -(m : Int))
  | _ => (digitsToNat t 0).map Int.ofNat

/-- Lines 286-288: `east = values[0]; north = values[1]; cat =
int(values[2])` — extract the three used fields of a geometry line;
`IndexError` past the end, `ValueError` on a bad category field. -/
def parseFields (values : List String) :
    Except PyError (String × String × Int) :=
  match values.get? 0 with
  | none => .error .indexError
  | some east =>
    match values.get? 1 with
    | none => .error .indexError
    | some north =>
      match values.get? 2 with
      | none => .error .indexError
      | some catStr =>
        match pyParseInt catStr with
        | none => .error .valueError
        | some cat => .ok (east, north, cat)

/-- Lines 285-309 for one non-blank line, starting from the split field
list: parse the fields, look the category up in the table (line 290,
`row = table[cat]`, `KeyError` when absent) and run the attribute loop. -/
def processValues (cols : List String) (table : List (Int × List String))
    (opts : List (String × String)) (values : List String)
    (v : Option String) :
    Except PyError (List (String × String) × Option String) :=
  match parseFields values with
  | .error e => .error e
  | .ok (east, north, cat) =>
    match table.lookup cat with
    | none => .error .keyError
    | some row => resolveLoop cols row east north opts label_attributes v

/-- One non-blank geometry line, from its raw text. -/
def processLine (cols : List String) (table : List (Int × List String))
    (opts : List (String × String)) (line : String) (v : Option String) :
    Except PyError (List (String × String) × Option String) :=
  processValues cols table opts (splitFields line) v

/-- Lines 282-311: the stream loop over the geometry lines.  Blank lines
are skipped (line 283-284); a raised exception stops the run, keeping the
blocks already written.  Returns the completed blocks in order, the final
content of the `value` variable, and the terminating error if any. -/
def processLines (cols : List String) (table : List (Int × List String))
    (opts : List (String × String)) :
    List String → Option String →
      List (List (String × String)) × Option String × Option PyError
  | [], v => ([], v, none)
  | line :: rest, v =>
    if line = "" then processLines cols table opts rest v
    else
      match processLine cols table opts line v with
      | .error e => ([], v, some e)
      | .ok (block, vf) =>
        let r := processLines cols table opts rest vf
        (block :: r.1, r.2.1, r.2.2)

/-- Python `str.splitlines` restricted to the line endings that actually
occur in the data (`\n`, `\r\n`, `\r`): split into lines, no trailing empty
line. `acc` holds the reversed current line. -/
def splitlinesList : List Char → List Char → List (List Char)
  | [], acc => if acc.isEmpty then [] else [acc.reverse]
  | '\r' :: '\n' :: rest, acc => acc.reverse :: splitlinesList rest []
  | '\r' :: rest, acc => acc.reverse :: splitlinesList rest []
  | '\n' :: rest, acc => acc.reverse :: splitlinesList rest []
  | c :: rest, acc => splitlinesList rest (c :: acc)

/-- Line 282: `ascii.splitlines()`. -/
def splitlines (s : String) : List String :=
  (splitlinesList s.data []).map String.mk

/-- The whole stream-processing phase of `main` on the collaborator
outputs: split the ascii export into lines and run the loop with the
`value` variable initially unassigned. -/
def run (cols : List String) (table : List (Int × List String))
    (opts : List (String × String)) (ascii : String) :
    List (List (String × String)) × Option String × Option PyError :=
  processLines cols table opts (splitlines ascii) none

/-- Line 309: one written line, `'...: ...'` with a key, a colon, a space,
the value and a newline. -/
def formatPair (p : String × String) : String :=
  p.1 ++ ": " ++ p.2 ++ "\n"

/-- Lines 309-311: the text of one completed block — its attribute lines
followed by the terminating blank line. -/
def formatBlock (block : List (String × String)) : String :=
  String.join (block.map formatPair) ++ "\n"

/-- The data `main` holds while the stream loop runs: the collaborator
outputs and what has been written to standard output so far. -/
structure ProgState where
  column_names : List String
  table : List (Int × List String)
  options : List (String × String)
  ascii : String
  output : String
  deriving Repr

/-- Lines 282-311 as explicit state passing: each iteration reads the
column list, the table and the options from the state and appends the
formatted block to the output; nothing else in the state is touched. -/
def loopState : ProgState → List String → Option String →
    ProgState × Option PyError
  | s, [], _ => (s, none)
  | s, line :: rest, v =>
    if line = "" then loopState s rest v
    else
      match processLine s.column_names s.table s.options line v with
      | .error e => (s, some e)
      | .ok (block, vf) =>
        loopState { s with output := s.output ++ formatBlock block } rest vf

/-- The stream loop of `main`, state-passing view. -/
def mainLoop (s : ProgState) : ProgState × Option PyError :=
  loopState s (splitlines s.ascii) none

/-- The option keys that the attribute loop can demand from the parsed
options: every option-backed attribute of `label_attributes` after the
`ref` → `reference`, `rotate` → `rotation` remapping.  The parser of the
script guarantees all of them (each has a declared default answer). -/
def neededOptionKeys : List String :=
  ["xoffset", "yoffset", "reference", "font", "color", "size", "width",
   "hcolor", "hwidth", "background", "border", "opaque", "rotation"]

/-- The parsed-options mapping contains every option key the attribute
loop can look up. -/
abbrev OptionsComplete (opts : List (String × String)) : Prop :=
  ∀ k ∈ neededOptionKeys, (opts.lookup k).isSome

/-- Every row of the table is aligned with the column-name list, as
`vector_db_select` guarantees. -/
abbrev RowsAligned (cols : List String)
    (table : List (Int × List String)) : Prop :=
  ∀ p ∈ table, p.2.length = cols.length

/-! Concrete collaborator outputs, used below to evaluate the embedding on
the scenario of the specification: a small point map whose table has
columns `cat` and `name`, with the declared option defaults of the
script. -/

def exColumns : List String := ["cat", "name"]

def exTable : List (Int × List String) :=
  [(1, ["1", "treeA"]), (2, ["2", "oakB"])]

def exOptions : List (String × String) :=
  [("input", "trees"), ("output", ""), ("layer", "1"),
   ("type", "point,line,boundary,centroid,area,face,kernel"),
   ("cats", ""), ("where", ""), ("dp", "8"), ("xoffset", "0"),
   ("yoffset", "0"), ("reference", "center"), ("font", "standard"),
   ("size", "100"), ("color", "black"), ("rotation", "0"), ("width", "1"),
   ("hcolor", "none"), ("hwidth", "0"), ("background", "none"),
   ("border", "none"), ("opaque", "yes")]

def exLine : String := "10.0<--->20.0<--->1"

/-- The block the script emits for `exLine` against `exColumns`,
`exTable` and `exOptions`. -/
def exBlock : List (String × String) :=
  [("east", "10.0"), ("north", "20.0"), ("xoffset", "0"), ("yoffset", "0"),
   ("ref", "center"), ("font", "standard"), ("color", "black"),
   ("size", "100"), ("width", "1"), ("hcolor", "none"), ("hwidth", "0"),
   ("background", "none"), ("border", "none"), ("opaque", "yes"),
   ("rotate", "0"), ("text", "treeA"), ("reference", "center"),
   ("rotation", "0")]

/-- The block emitted for the second feature, `30.0<--->40.0<--->2`. -/
def exBlock2 : List (String × String) :=
  [("east", "30.0"), ("north", "40.0"), ("xoffset", "0"), ("yoffset", "0"),
   ("ref", "center"), ("font", "standard"), ("color", "black"),
   ("size", "100"), ("width", "1"), ("hcolor", "none"), ("hwidth", "0"),
   ("background", "none"), ("border", "none"), ("opaque", "yes"),
   ("rotate", "0"), ("text", "oakB"), ("reference", "center"),
   ("rotation", "0")]

/-- Columns of a second scenario in which a column name (`color`) collides
with a label attribute name. -/
def exColumnsB : List String := ["cat", "color"]

def exTableB : List (Int × List String) := [(1, ["1", "red"])]

/-- The block emitted for `exLine` against `exColumnsB` and `exTableB`:
`color` now comes from the table, and `text` (no `name` or `label`
column) repeats the `rotate` value. -/
def exBlockB : List (String × String) :=
  [("east", "10.0"), ("north", "20.0"), ("xoffset", "0"), ("yoffset", "0"),
   ("ref", "center"), ("font", "standard"), ("color", "red"),
   ("size", "100"), ("width", "1"), ("hcolor", "none"), ("hwidth", "0"),
   ("background", "none"), ("border", "none"), ("opaque", "yes"),
   ("rotate", "0"), ("text", "0"), ("reference", "center"),
   ("rotation", "0")]

/-! Helper lemmas about association-list lookup and the column index. -/

theorem lookup_mem {κ α : Type} [BEq κ] [LawfulBEq κ]
    {l : List (κ × α)} {a : κ} {b : α}
    (h : l.lookup a = some b) : (a, b) ∈ l := by
  induction l with
  | nil => simp [List.lookup] at h
  | cons p rest ih =>
    obtain ⟨k, v⟩ := p
    rw [List.lookup_cons] at h
    cases hk : a == k with
    | true =>
      simp only [hk, Option.some.injEq] at h
      rw [List.mem_cons]
      exact Or.inl (by rw [eq_of_beq hk, h])
    | false =>
      simp only [hk] at h
      exact List.mem_cons_of_mem _ (ih h)

theorem lookup_isSome_of_mem {κ α : Type} [BEq κ] [LawfulBEq κ]
    {l : List (κ × α)} {a : κ} {b : α}
    (h : (a, b) ∈ l) : ∃ c, l.lookup a = some c := by
  induction l with
  | nil => simp at h
  | cons p rest ih =>
    obtain ⟨k, v⟩ := p
    cases hk : a == k with
    | true => exact ⟨v, by rw [List.lookup_cons]; simp only [hk]⟩
    | false =>
      rw [List.mem_cons] at h
      rcases h with h | h
      · have hak : a = k := congrArg Prod.fst h
        rw [hak] at hk
        simp at hk
      · obtain ⟨c, hc⟩ := ih h
        exact ⟨c, by rw [List.lookup_cons]; simp only [hk, hc]⟩

theorem indexPairs_mem_of_mem {cols : List String} {name : String}
    (h : name ∈ cols) : ∀ k : Nat, ∃ i, (name, i) ∈ indexPairs k cols := by
  induction cols with
  | nil => simp at h
  | cons c cs ih =>
    intro k
    rw [List.mem_cons] at h
    rcases h with h | h
    · exact ⟨k, by simp [indexPairs, h]⟩
    · obtain ⟨i, hi⟩ := ih h (k + 1)
      exact ⟨i, by simp [indexPairs, Or.inr hi]⟩

theorem indexPairs_get {cols : List String} :
    ∀ {k : Nat} {p : String × Nat}, p ∈ indexPairs k cols →
      k ≤ p.2 ∧ cols.get? (p.2 - k) = some p.1 := by
  induction cols with
  | nil => intro k p h; simp [indexPairs] at h
  | cons c cs ih =>
    intro k p h
    rw [indexPairs, List.mem_cons] at h
    rcases h with h | h
    · subst h
      simp
    · obtain ⟨hle, hget⟩ := ih h
      refine ⟨by omega, ?_⟩
      have hsub : p.2 - k = (p.2 - (k + 1)) + 1 := by omega
      rw [hsub, List.get?_cons_succ]
      exact hget

theorem column_index_isSome {cols : List String} {name : String}
    (h : name ∈ cols) : ∃ i, column_index cols name = some i := by
  obtain ⟨i, hi⟩ := indexPairs_mem_of_mem h 0
  exact lookup_isSome_of_mem (by
    rw [column_indexes, List.mem_reverse]; exact hi)

theorem column_index_spec {cols : List String} {name : String} {i : Nat}
    (h : column_index cols name = some i) : cols.get? i = some name := by
  have hmem := lookup_mem h
  rw [column_indexes, List.mem_reverse] at hmem
  have := indexPairs_get hmem
  simpa using this.2

theorem column_index_lt {cols : List String} {name : String} {i : Nat}
    (h : column_index cols name = some i) : i < cols.length := by
  have hspec := column_index_spec h
  by_contra hh
  push_neg at hh
  rw [List.get?_eq_none.mpr hh] at hspec
  exact Option.noConfusion hspec

theorem tableCell_ok {cols row : List String} {name : String}
    (hmem : name ∈ cols) (hrow : row.length = cols.length) :
    ∃ v i, tableCell cols row name = .ok v ∧
      column_index cols name = some i ∧ row.get? i = some v := by
  obtain ⟨i, hi⟩ := column_index_isSome hmem
  have hlt : i < row.length := hrow ▸ column_index_lt hi
  obtain ⟨v, hv⟩ : ∃ v, row.get? i = some v :=
    ⟨row.get ⟨i, hlt⟩, List.get?_eq_get hlt⟩
  have hv' : row[i]? = some v := by rw [← List.get?_eq_getElem?]; exact hv
  exact ⟨v, i, by simp [tableCell, hi, hv'], hi, hv⟩

/-! Structure of the attribute loop: the keys it writes, and its totality
under the well-formedness the collaborators guarantee. -/

theorem resolveLoop_keys {cols row : List String} {east north : String}
    {opts : List (String × String)} :
    ∀ {attrs : List String} {v : Option String}
      {block : List (String × String)} {vf : Option String},
      resolveLoop cols row east north opts attrs v = .ok (block, vf) →
      block.map Prod.fst = attrs := by
  intro attrs
  induction attrs with
  | nil =>
    intro v block vf h
    rw [resolveLoop] at h
    simp only [Except.ok.injEq, Prod.mk.injEq] at h
    rw [← h.1]
    rfl
  | cons a rest ih =>
    intro v block vf h
    rw [resolveLoop] at h
    cases hra : resolveAttribute cols row east north opts v a with
    | error e => simp only [hra] at h; exact Except.noConfusion h
    | ok w =>
      cases w with
      | none => simp only [hra] at h; exact Except.noConfusion h
      | some val =>
        simp only [hra] at h
        cases hrec : resolveLoop cols row east north opts rest (some val) with
        | error e => simp only [hrec] at h; exact Except.noConfusion h
        | ok r =>
          obtain ⟨pairs, vf2⟩ := r
          simp only [hrec, Except.ok.injEq, Prod.mk.injEq] at h
          rw [← h.1]
          simpa using ih hrec

/-- Every member of `label_attributes` is either resolved from the feature
record, from the fallback search, or from a declared option key: checked by
evaluation over the concrete 18-name list. -/
theorem label_attributes_option_keys :
    ∀ a ∈ label_attributes, a = "east" ∨ a = "north" ∨ a = "text" ∨
      attributeOptionKey a ∈ neededOptionKeys := by decide

theorem resolveAttribute_total {cols row : List String} {east north : String}
    {opts : List (String × String)} {v : Option String} {a : String}
    (ha : a ∈ label_attributes) (hopts : OptionsComplete opts)
    (hrow : row.length = cols.length) :
    ∃ w, resolveAttribute cols row east north opts v a = .ok w ∧
      (w.isSome ∨ w = v) := by
  by_cases hc : a ∈ cols
  · obtain ⟨cell, i, hcell, -, -⟩ := tableCell_ok hc hrow
    refine ⟨some cell, ?_, Or.inl rfl⟩
    rw [resolveAttribute, if_pos hc, hcell]
    rfl
  · rw [resolveAttribute, if_neg hc]
    by_cases he : a = "east"
    · exact ⟨some east, by rw [if_pos he], Or.inl rfl⟩
    rw [if_neg he]
    by_cases hn : a = "north"
    · exact ⟨some north, by rw [if_pos hn], Or.inl rfl⟩
    rw [if_neg hn]
    by_cases ht : a = "text"
    · rw [if_pos ht]
      by_cases hna : "name" ∈ cols
      · obtain ⟨cell, i, hcell, -, -⟩ := tableCell_ok hna hrow
        refine ⟨some cell, ?_, Or.inl rfl⟩
        rw [textFallback, if_pos hna, hcell]
        rfl
      · by_cases hla : "label" ∈ cols
        · obtain ⟨cell, i, hcell, -, -⟩ := tableCell_ok hla hrow
          refine ⟨some cell, ?_, Or.inl rfl⟩
          rw [textFallback, if_neg hna, if_pos hla, hcell]
          rfl
        · refine ⟨v, ?_, Or.inr rfl⟩
          rw [textFallback, if_neg hna, if_neg hla]
    · rw [if_neg ht]
      have hkey : attributeOptionKey a ∈ neededOptionKeys := by
        rcases label_attributes_option_keys a ha with h | h | h | h
        · exact absurd h he
        · exact absurd h hn
        · exact absurd h ht
        · exact h
      have hsome := hopts _ hkey
      cases hl : opts.lookup (attributeOptionKey a) with
      | none => rw [hl] at hsome; simp at hsome
      | some w =>
        refine ⟨some w, ?_, Or.inl rfl⟩
        rfl

theorem resolveLoop_some_total {cols row : List String} {east north : String}
    {opts : List (String × String)}
    (hopts : OptionsComplete opts) (hrow : row.length = cols.length) :
    ∀ (attrs : List String), (∀ a ∈ attrs, a ∈ label_attributes) →
      ∀ v : String, ∃ block vf,
        resolveLoop cols row east north opts attrs (some v) =
          .ok (block, some vf) := by
  intro attrs
  induction attrs with
  | nil => exact fun _ v => ⟨[], v, rfl⟩
  | cons a rest ih =>
    intro hmem v
    obtain ⟨w, hw, hcase⟩ := @resolveAttribute_total cols row east north
      opts (some v) a (hmem a (List.mem_cons_self a rest)) hopts hrow
    have hws : ∃ u, w = some u := by
      rcases hcase with h | h
      · exact Option.isSome_iff_exists.mp h
      · exact ⟨v, h⟩
    obtain ⟨u, rfl⟩ := hws
    obtain ⟨block, vf, hrec⟩ :=
      ih (fun a ha => hmem a (List.mem_cons_of_mem _ ha)) u
    refine ⟨(a, u) :: block, vf, ?_⟩
    rw [resolveLoop]
    simp only [hw, hrec]

theorem resolveLoop_label_total {cols row : List String}
    {east north : String} {opts : List (String × String)}
    (hopts : OptionsComplete opts) (hrow : row.length = cols.length)
    (v : Option String) :
    ∃ block vf,
      resolveLoop cols row east north opts label_attributes v =
        .ok (block, some vf) := by
  have hfirst : ∃ u, resolveAttribute cols row east north opts v "east" =
      .ok (some u) := by
    by_cases hc : "east" ∈ cols
    · obtain ⟨cell, i, hcell, -, -⟩ := tableCell_ok hc hrow
      exact ⟨cell, by rw [resolveAttribute, if_pos hc, hcell]; rfl⟩
    · exact ⟨east, by rw [resolveAttribute, if_neg hc, if_pos rfl]⟩
  obtain ⟨u, hu⟩ := hfirst
  have htail : ∀ a ∈ label_attributes.tail, a ∈ label_attributes := by decide
  obtain ⟨block, vf, hrec⟩ := @resolveLoop_some_total cols row east north
    opts hopts hrow label_attributes.tail htail u
  refine ⟨("east", u) :: block, vf, ?_⟩
  show resolveLoop cols row east north opts
    ("east" :: label_attributes.tail) v = _
  rw [resolveLoop]
  simp only [hu, hrec]

theorem processValues_ok {cols : List String}
    {table : List (Int × List String)} {opts : List (String × String)}
    {values : List String} {east north : String} {cat : Int}
    {row : List String} {v : Option String}
    (hparse : parseFields values = .ok (east, north, cat))
    (hrow : table.lookup cat = some row)
    (halign : row.length = cols.length) (hopts : OptionsComplete opts) :
    ∃ block vf,
      processValues cols table opts values v = .ok (block, some vf) := by
  obtain ⟨block, vf, hloop⟩ :=
    @resolveLoop_label_total cols row east north opts hopts halign v
  refine ⟨block, vf, ?_⟩
  rw [processValues]
  simp only [hparse, hrow, hloop]

/-! What value each kind of attribute gets in a completed block. -/

theorem resolveLoop_lookup_col {cols row : List String}
    {east north : String} {opts : List (String × String)} {a : String}
    {i : Nat} (hc : a ∈ cols) (hi : column_index cols a = some i) :
    ∀ {attrs : List String} {v : Option String}
      {block : List (String × String)} {vf : Option String},
      a ∈ attrs →
      resolveLoop cols row east north opts attrs v = .ok (block, vf) →
      block.lookup a = row.get? i := by
  intro attrs
  induction attrs with
  | nil => intro v block vf ha _; simp at ha
  | cons b rest ih =>
    intro v block vf ha h
    rw [resolveLoop] at h
    cases hra : resolveAttribute cols row east north opts v b with
    | error e => simp only [hra] at h; exact Except.noConfusion h
    | ok w =>
      cases w with
      | none => simp only [hra] at h; exact Except.noConfusion h
      | some val =>
        simp only [hra] at h
        cases hrec : resolveLoop cols row east north opts rest (some val) with
        | error e => simp only [hrec] at h; exact Except.noConfusion h
        | ok r =>
          obtain ⟨pairs, vf2⟩ := r
          simp only [hrec, Except.ok.injEq, Prod.mk.injEq] at h
          obtain ⟨hb, -⟩ := h
          by_cases hab : a = b
          · subst hab
            rw [resolveAttribute, if_pos hc, tableCell] at hra
            simp only [hi] at hra
            cases hget : row.get? i with
            | none =>
              simp only [hget, Except.map_error] at hra
              exact Except.noConfusion hra
            | some cell =>
              simp only [hget, Except.map, Except.ok.injEq,
                Option.some.injEq] at hra
              rw [← hb]
              simp [List.lookup, hra]
          · rw [← hb]
            rw [List.lookup, beq_eq_false_iff_ne.mpr hab]
            have ha2 : a ∈ rest := by
              rcases List.mem_cons.mp ha with h2 | h2
              · exact absurd h2 hab
              · exact h2
            exact ih ha2 hrec

theorem resolveLoop_lookup_geom {cols row : List String}
    {east north : String} {opts : List (String × String)} {a w : String}
    (hres : ∀ u : Option String,
      resolveAttribute cols row east north opts u a = .ok (some w)) :
    ∀ {attrs : List String} {v : Option String}
      {block : List (String × String)} {vf : Option String},
      a ∈ attrs →
      resolveLoop cols row east north opts attrs v = .ok (block, vf) →
      block.lookup a = some w := by
  intro attrs
  induction attrs with
  | nil => intro v block vf ha _; simp at ha
  | cons b rest ih =>
    intro v block vf ha h
    rw [resolveLoop] at h
    cases hra : resolveAttribute cols row east north opts v b with
    | error e => simp only [hra] at h; exact Except.noConfusion h
    | ok w2 =>
      cases w2 with
      | none => simp only [hra] at h; exact Except.noConfusion h
      | some val =>
        simp only [hra] at h
        cases hrec : resolveLoop cols row east north opts rest (some val) with
        | error e => simp only [hrec] at h; exact Except.noConfusion h
        | ok r =>
          obtain ⟨pairs, vf2⟩ := r
          simp only [hrec, Except.ok.injEq, Prod.mk.injEq] at h
          obtain ⟨hb, -⟩ := h
          by_cases hab : a = b
          · subst hab
            rw [hres v] at hra
            simp only [Except.ok.injEq, Option.some.injEq] at hra
            rw [← hb]
            simp [List.lookup, hra]
          · rw [← hb, List.lookup, beq_eq_false_iff_ne.mpr hab]
            have ha2 : a ∈ rest := by
              rcases List.mem_cons.mp ha with h2 | h2
              · exact absurd h2 hab
              · exact h2
            exact ih ha2 hrec

theorem resolveLoop_lookup_opt {cols row : List String}
    {east north : String} {opts : List (String × String)} {a : String}
    (hc : a ∉ cols) (he : a ≠ "east") (hn : a ≠ "north")
    (ht : a ≠ "text") :
    ∀ {attrs : List String} {v : Option String}
      {block : List (String × String)} {vf : Option String},
      a ∈ attrs →
      resolveLoop cols row east north opts attrs v = .ok (block, vf) →
      block.lookup a = opts.lookup (attributeOptionKey a) := by
  intro attrs
  induction attrs with
  | nil => intro v block vf ha _; simp at ha
  | cons b rest ih =>
    intro v block vf ha h
    rw [resolveLoop] at h
    cases hra : resolveAttribute cols row east north opts v b with
    | error e => simp only [hra] at h; exact Except.noConfusion h
    | ok w2 =>
      cases w2 with
      | none => simp only [hra] at h; exact Except.noConfusion h
      | some val =>
        simp only [hra] at h
        cases hrec : resolveLoop cols row east north opts rest (some val) with
        | error e => simp only [hrec] at h; exact Except.noConfusion h
        | ok r =>
          obtain ⟨pairs, vf2⟩ := r
          simp only [hrec, Except.ok.injEq, Prod.mk.injEq] at h
          obtain ⟨hb, -⟩ := h
          by_cases hab : a = b
          · subst hab
            rw [resolveAttribute, if_neg hc, if_neg he, if_neg hn,
              if_neg ht] at hra
            cases hl : opts.lookup (attributeOptionKey a) with
            | none =>
              rw [hl] at hra
              exact Except.noConfusion hra
            | some w =>
              rw [hl] at hra
              simp only [Except.ok.injEq, Option.some.injEq] at hra
              rw [← hb]
              simp [List.lookup, hra]
          · rw [← hb, List.lookup, beq_eq_false_iff_ne.mpr hab]
            have ha2 : a ∈ rest := by
              rcases List.mem_cons.mp ha with h2 | h2
              · exact absurd h2 hab
              · exact h2
            exact ih ha2 hrec

/-- The stale-value behavior of the `text` attribute: when neither `text`
itself nor a fallback column exists, the pair written for `text` repeats
the value written for the attribute placed right before it in the list. -/
theorem resolveLoop_text_stale {cols row : List String}
    {east north : String} {opts : List (String × String)}
    (htext : "text" ∉ cols) (hname : "name" ∉ cols)
    (hlabel : "label" ∉ cols) :
    ∀ (attrs1 : List String) {attrs2 : List String} {v : Option String}
      {block : List (String × String)} {vf : Option String},
      "rotate" ∉ attrs1 → "text" ∉ attrs1 →
      resolveLoop cols row east north opts
        (attrs1 ++ "rotate" :: "text" :: attrs2) v = .ok (block, vf) →
      block.lookup "text" = block.lookup "rotate" := by
  intro attrs1
  induction attrs1 with
  | nil =>
    intro attrs2 v block vf _ _ h
    rw [List.nil_append, resolveLoop] at h
    cases hra : resolveAttribute cols row east north opts v "rotate" with
    | error e => simp only [hra] at h; exact Except.noConfusion h
    | ok w =>
      cases w with
      | none => simp only [hra] at h; exact Except.noConfusion h
      | some vr =>
        simp only [hra] at h
        have htxt : resolveAttribute cols row east north opts (some vr)
            "text" = .ok (some vr) := by
          rw [resolveAttribute, if_neg htext]
          have h1 : ("text" : String) ≠ "east" := by decide
          have h2 : ("text" : String) ≠ "north" := by decide
          rw [if_neg h1, if_neg h2, if_pos rfl, textFallback,
            if_neg hname, if_neg hlabel]
        rw [resolveLoop] at h
        simp only [htxt] at h
        cases hrec : resolveLoop cols row east north opts attrs2
            (some vr) with
        | error e => simp only [hrec] at h; exact Except.noConfusion h
        | ok r =>
          obtain ⟨pairs, vf2⟩ := r
          simp only [hrec, Except.ok.injEq, Prod.mk.injEq] at h
          obtain ⟨hb, -⟩ := h
          rw [← hb]
          have hne : ("text" : String) ≠ "rotate" := by decide
          rw [List.lookup, beq_eq_false_iff_ne.mpr hne]
          simp [List.lookup]
  | cons b rest ih =>
    intro attrs2 v block vf hr ht h
    rw [List.cons_append, resolveLoop] at h
    cases hra : resolveAttribute cols row east north opts v b with
    | error e => simp only [hra] at h; exact Except.noConfusion h
    | ok w =>
      cases w with
      | none => simp only [hra] at h; exact Except.noConfusion h
      | some val =>
        simp only [hra] at h
        cases hrec : resolveLoop cols row east north opts
            (rest ++ "rotate" :: "text" :: attrs2) (some val) with
        | error e => simp only [hrec] at h; exact Except.noConfusion h
        | ok r =>
          obtain ⟨pairs, vf2⟩ := r
          simp only [hrec, Except.ok.injEq, Prod.mk.injEq] at h
          obtain ⟨hb, -⟩ := h
          have hbr : ("rotate" : String) ≠ b :=
            fun hh => hr (hh ▸ List.mem_cons_self b rest)
          have hbt : ("text" : String) ≠ b :=
            fun hh => ht (hh ▸ List.mem_cons_self b rest)
          rw [← hb, List.lookup, beq_eq_false_iff_ne.mpr hbt,
            List.lookup, beq_eq_false_iff_ne.mpr hbr]
          exact ih (fun hh => hr (List.mem_cons_of_mem _ hh))
            (fun hh => ht (List.mem_cons_of_mem _ hh)) hrec

/-! Stream-level lemmas: composing runs, counting blocks, and the frame of
the state-passing loop. -/

theorem processLines_append_ok {cols : List String}
    {table : List (Int × List String)} {opts : List (String × String)} :
    ∀ (xs : List String) {ys : List String} {v : Option String},
      (processLines cols table opts xs v).2.2 = none →
      processLines cols table opts (xs ++ ys) v =
        ((processLines cols table opts xs v).1 ++
          (processLines cols table opts ys
            ((processLines cols table opts xs v).2.1)).1,
         (processLines cols table opts ys
            ((processLines cols table opts xs v).2.1)).2) := by
  intro xs
  induction xs with
  | nil =>
    intro ys v _
    simp only [List.nil_append, processLines, List.nil_append]
  | cons line rest ih =>
    intro ys v hnone
    by_cases hline : line = ""
    · subst hline
      rw [processLines, if_pos rfl] at hnone
      rw [List.cons_append, processLines, if_pos rfl, processLines,
        if_pos rfl]
      exact ih hnone
    · rw [processLines, if_neg hline] at hnone
      rw [List.cons_append, processLines, if_neg hline, processLines,
        if_neg hline]
      cases hpl : processLine cols table opts line v with
      | error e =>
        rw [hpl] at hnone
        simp at hnone
      | ok r =>
        obtain ⟨block, vf⟩ := r
        rw [hpl] at hnone
        simp only [hpl]
        simp only at hnone
        rw [ih hnone]
        simp

theorem processLines_count {cols : List String}
    {table : List (Int × List String)} {opts : List (String × String)}
    (hopts : OptionsComplete opts) (hrows : RowsAligned cols table) :
    ∀ (lines : List String),
      (∀ line ∈ lines, line ≠ "" → ∃ east north cat row,
        parseFields (splitFields line) = .ok (east, north, cat) ∧
          table.lookup cat = some row) →
      ∀ v : Option String,
        (processLines cols table opts lines v).1.length =
          (lines.filter (fun l => !(l == ""))).length := by
  intro lines
  induction lines with
  | nil => intro _ v; rfl
  | cons line rest ih =>
    intro hvalid v
    by_cases hline : line = ""
    · subst hline
      rw [processLines, if_pos rfl]
      have hfilter : (("" : String) :: rest).filter (fun l => !(l == "")) =
          rest.filter (fun l => !(l == "")) := by
        rw [List.filter_cons]
        simp
      rw [hfilter]
      exact ih (fun l hl => hvalid l (List.mem_cons_of_mem _ hl)) v
    · obtain ⟨east, north, cat, row, hparse, hrow⟩ :=
        hvalid line (List.mem_cons_self line rest) hline
      have halign : row.length = cols.length :=
        hrows (cat, row) (lookup_mem hrow)
      obtain ⟨block, vf, hok⟩ := @processValues_ok cols table opts
        (splitFields line) east north cat row v hparse hrow halign hopts
      rw [processLines, if_neg hline]
      simp only [processLine]
      rw [hok]
      have hfilter : (line :: rest).filter (fun l => !(l == "")) =
          line :: rest.filter (fun l => !(l == "")) := by
        rw [List.filter_cons]
        simp [beq_eq_false_iff_ne.mpr hline]
      rw [hfilter]
      simp only [List.length_cons]
      rw [ih (fun l hl => hvalid l (List.mem_cons_of_mem _ hl)) (some vf)]

theorem loopState_frame :
    ∀ (lines : List String) (s : ProgState) (v : Option String),
      (loopState s lines v).1.column_names = s.column_names ∧
      (loopState s lines v).1.table = s.table ∧
      (loopState s lines v).1.options = s.options ∧
      (loopState s lines v).1.ascii = s.ascii ∧
      ∃ t, (loopState s lines v).1.output = s.output ++ t := by
  intro lines
  induction lines with
  | nil => exact fun s v => ⟨rfl, rfl, rfl, rfl, "", by simp [loopState]⟩
  | cons line rest ih =>
    intro s v
    by_cases hline : line = ""
    · subst hline
      rw [loopState, if_pos rfl]
      exact ih s v
    · rw [loopState, if_neg hline]
      cases hpl : processLine s.column_names s.table s.options line v with
      | error e => exact ⟨rfl, rfl, rfl, rfl, "", by simp⟩
      | ok r =>
        obtain ⟨block, vf⟩ := r
        obtain ⟨h1, h2, h3, h4, t, h5⟩ :=
          ih { s with output := s.output ++ formatBlock block } vf
        exact ⟨h1, h2, h3, h4, formatBlock block ++ t, by
          rw [h5]
          simp [String.append_assoc]⟩

/-! Elimination helpers shared by the claim theorems below. -/

theorem processValues_ok_elim {cols : List String}
    {table : List (Int × List String)} {opts : List (String × String)}
    {values : List String} {v : Option String}
    {block : List (String × String)} {vf : Option String}
    (h : processValues cols table opts values v = .ok (block, vf)) :
    ∃ east north cat row,
      parseFields values = .ok (east, north, cat) ∧
      table.lookup cat = some row ∧
      resolveLoop cols row east north opts label_attributes v =
        .ok (block, vf) := by
  rw [processValues] at h
  cases hp : parseFields values with
  | error e => simp only [hp] at h; exact Except.noConfusion h
  | ok t =>
    obtain ⟨east, north, cat⟩ := t
    simp only [hp] at h
    cases hl : table.lookup cat with
    | none => simp only [hl] at h; exact Except.noConfusion h
    | some row =>
      simp only [hl] at h
      exact ⟨east, north, cat, row, rfl, hl, h⟩

theorem parseFields_elim {values : List String} {east north : String}
    {cat : Int} (h : parseFields values = .ok (east, north, cat)) :
    values.get? 0 = some east ∧ values.get? 1 = some north ∧
      ∃ st, values.get? 2 = some st ∧ pyParseInt st = some cat := by
  rw [parseFields] at h
  cases h0 : values.get? 0 with
  | none => simp only [h0] at h; exact Except.noConfusion h
  | some f0 =>
    simp only [h0] at h
    cases h1 : values.get? 1 with
    | none => simp only [h1] at h; exact Except.noConfusion h
    | some f1 =>
      simp only [h1] at h
      cases h2 : values.get? 2 with
      | none => simp only [h2] at h; exact Except.noConfusion h
      | some f2 =>
        simp only [h2] at h
        cases h3 : pyParseInt f2 with
        | none => simp only [h3] at h; exact Except.noConfusion h
        | some c =>
          simp only [h3, Except.ok.injEq, Prod.mk.injEq] at h
          obtain ⟨he, hn, hc⟩ := h
          refine ⟨?_, ?_, f2, rfl, ?_⟩
          · rw [he]
          · rw [hn]
          · rw [h3, hc]

theorem parseFields_err {values : List String}
    (hbad : (values.get? 2).bind pyParseInt = none) :
    ∃ e, parseFields values = .error e := by
  rw [parseFields]
  cases h0 : values.get? 0 with
  | none => exact ⟨.indexError, by simp only [h0]⟩
  | some f0 =>
    cases h1 : values.get? 1 with
    | none => exact ⟨.indexError, by simp only [h0, h1]⟩
    | some f1 =>
      cases h2 : values.get? 2 with
      | none => exact ⟨.indexError, by simp only [h0, h1, h2]⟩
      | some f2 =>
        rw [h2] at hbad
        simp only [Option.bind] at hbad
        exact ⟨.valueError, by simp only [h0, h1, h2, hbad]⟩

/-! The claims. -/

/-- C1, counterexample: on the concrete scenario, the attribute names of
the emitted block are not the 16 base names — the block carries two
further lines, `reference` and `rotation`, after `text`, because line 280
extends the iterated list with the option attribute names. -/
theorem C1_counterexample :
    (processLine exColumns exTable exOptions exLine none).map
        (fun r => r.1.map Prod.fst) =
      .ok (label_attributes_base ++ ["reference", "rotation"]) ∧
    label_attributes_base ++ ["reference", "rotation"] ≠
      label_attributes_base :=
  ⟨rfl, by decide⟩

/-- C1 as amended: for every feature processed, the emitted block consists
of exactly 18 attribute lines — the 16 label attribute names in the fixed
order, each exactly once, followed by `reference` and `rotation` (appended
to the iterated list by the extend on line 280), and no others. -/
theorem C1_amended_block_keys {cols : List String}
    {table : List (Int × List String)} {opts : List (String × String)}
    {line : String} {v : Option String}
    {block : List (String × String)} {vf : Option String}
    (hok : processLine cols table opts line v = .ok (block, vf)) :
    block.map Prod.fst =
      label_attributes_base ++ ["reference", "rotation"] := by
  rw [processLine] at hok
  obtain ⟨e2, n2, c2, row, -, -, hloop⟩ := processValues_ok_elim hok
  exact resolveLoop_keys hloop

/-- C1 witness: the amended statement evaluated on the concrete
scenario. -/
theorem C1_amended_block_keys_witness :
    exBlock.map Prod.fst =
      label_attributes_base ++ ["reference", "rotation"] :=
  @C1_amended_block_keys exColumns exTable exOptions exLine none exBlock
    (some "0") rfl

/-- C2: a label attribute whose name exactly matches a column name is
resolved from the feature's table row — the emitted value is the cell at
that column's index, taking priority over the geometry fallback, the text
fallback search and the option default. -/
theorem C2_table_priority {cols : List String}
    {table : List (Int × List String)} {opts : List (String × String)}
    {values : List String} {v : Option String}
    {block : List (String × String)} {vf : Option String}
    {east north : String} {cat : Int} {row : List String} {a : String}
    (ha : a ∈ label_attributes) (hcol : a ∈ cols)
    (hparse : parseFields values = .ok (east, north, cat))
    (hrow : table.lookup cat = some row)
    (hok : processValues cols table opts values v = .ok (block, vf)) :
    ∃ i, column_index cols a = some i ∧ cols.get? i = some a ∧
      block.lookup a = row.get? i := by
  obtain ⟨e2, n2, c2, row2, hp2, hr2, hloop⟩ := processValues_ok_elim hok
  rw [hparse] at hp2
  simp only [Except.ok.injEq, Prod.mk.injEq] at hp2
  obtain ⟨-, -, hc2⟩ := hp2
  rw [← hc2, hrow] at hr2
  simp only [Option.some.injEq] at hr2
  rw [← hr2] at hloop
  obtain ⟨i, hi⟩ := column_index_isSome hcol
  exact ⟨i, hi, column_index_spec hi,
    resolveLoop_lookup_col hcol hi ha hloop⟩

/-- C2 witness: the `color` column of the second scenario takes priority
for the `color` attribute. -/
theorem C2_table_priority_witness :
    ∃ i, column_index exColumnsB "color" = some i ∧
      exColumnsB.get? i = some "color" ∧
      exBlockB.lookup "color" = (["1", "red"] : List String).get? i :=
  @C2_table_priority exColumnsB exTableB exOptions ["10.0", "20.0", "1"]
    none exBlockB (some "0") "10.0" "20.0" 1 ["1", "red"] "color"
    (by decide) (by decide) rfl rfl rfl

/-- C3: when `east` (resp. `north`) is not a column name, the emitted
`east` (resp. `north`) value is the first (resp. second)
separator-delimited field of the feature's geometry line, unchanged. -/
theorem C3_geometry_fallback {cols : List String}
    {table : List (Int × List String)} {opts : List (String × String)}
    {line : String} {v : Option String}
    {block : List (String × String)} {vf : Option String}
    (hok : processLine cols table opts line v = .ok (block, vf)) :
    ("east" ∉ cols →
      block.lookup "east" = (splitFields line).get? 0) ∧
    ("north" ∉ cols →
      block.lookup "north" = (splitFields line).get? 1) := by
  rw [processLine] at hok
  obtain ⟨east, north, cat, row, hparse, -, hloop⟩ :=
    processValues_ok_elim hok
  obtain ⟨h0, h1, -⟩ := parseFields_elim hparse
  constructor
  · intro hc
    rw [h0]
    refine @resolveLoop_lookup_geom cols row east north opts "east" east
      (fun u => ?_) label_attributes v block vf (by decide) hloop
    rw [resolveAttribute, if_neg hc, if_pos rfl]
  · intro hc
    rw [h1]
    refine @resolveLoop_lookup_geom cols row east north opts "north" north
      (fun u => ?_) label_attributes v block vf (by decide) hloop
    have hne : ("north" : String) ≠ "east" := by decide
    rw [resolveAttribute, if_neg hc, if_neg hne, if_pos rfl]

/-- C3 witness: the geometry fallback on the concrete scenario. -/
theorem C3_geometry_fallback_witness :
    ("east" ∉ exColumns →
      exBlock.lookup "east" = (splitFields exLine).get? 0) ∧
    ("north" ∉ exColumns →
      exBlock.lookup "north" = (splitFields exLine).get? 1) :=
  @C3_geometry_fallback exColumns exTable exOptions exLine none exBlock
    (some "0") rfl

/-- The geometry export used by the C4 witness: two features and one
blank line. -/
def exAscii : String :=
  "10.0<--->20.0<--->1\n\n30.0<--->40.0<--->2\n"

/-- C4: when every non-blank line of the geometry export parses and every
referenced category is present in the attribute table, the number of
emitted blocks equals the number of non-blank lines; blank lines produce
no output. -/
theorem C4_block_count {cols : List String}
    {table : List (Int × List String)} {opts : List (String × String)}
    {ascii : String}
    (hopts : OptionsComplete opts) (hrows : RowsAligned cols table)
    (hvalid : ∀ line ∈ splitlines ascii, line ≠ "" →
      ∃ east north cat row,
        parseFields (splitFields line) = .ok (east, north, cat) ∧
          table.lookup cat = some row) :
    (run cols table opts ascii).1.length =
      ((splitlines ascii).filter (fun l => !(l == ""))).length := by
  rw [run]
  exact processLines_count hopts hrows (splitlines ascii) hvalid none

/-- C4 witness: two non-blank lines and one blank line give two blocks. -/
theorem C4_block_count_witness :
    (run exColumns exTable exOptions exAscii).1.length =
      ((splitlines exAscii).filter (fun l => !(l == ""))).length :=
  @C4_block_count exColumns exTable exOptions exAscii
    (by decide) (by decide)
    (by
      intro line hl hne
      have hsplit : splitlines exAscii =
          ["10.0<--->20.0<--->1", "", "30.0<--->40.0<--->2"] := rfl
      rw [hsplit] at hl
      simp only [List.mem_cons, List.not_mem_nil, or_false] at hl
      rcases hl with rfl | rfl | rfl
      · exact ⟨"10.0", "20.0", 1, ["1", "treeA"], rfl, rfl⟩
      · exact absurd rfl hne
      · exact ⟨"30.0", "40.0", 2, ["2", "oakB"], rfl, rfl⟩)

/-- C5: a geometry line whose category is absent from the table stops the
run with the fatal lookup error (`KeyError`) when it is reached: the
blocks of the earlier lines are already written, and no block is emitted
for that line or any later one. -/
theorem C5_missing_category {cols : List String}
    {table : List (Int × List String)} {opts : List (String × String)}
    {pre post : List String} {v : Option String}
    {east north : String} {cat : Int} {bad : String}
    (hpre : (processLines cols table opts pre v).2.2 = none)
    (hbad : bad ≠ "")
    (hparse : parseFields (splitFields bad) = .ok (east, north, cat))
    (hcat : table.lookup cat = none) :
    processLines cols table opts (pre ++ bad :: post) v =
      ((processLines cols table opts pre v).1,
       (processLines cols table opts pre v).2.1,
       some PyError.keyError) := by
  rw [processLines_append_ok pre hpre]
  have hbadline : processLines cols table opts (bad :: post)
      ((processLines cols table opts pre v).2.1) =
      ([], (processLines cols table opts pre v).2.1,
        some PyError.keyError) := by
    rw [processLines, if_neg hbad]
    simp only [processLine, processValues, hparse, hcat]
  rw [hbadline]
  simp

/-- C5 witness: category 5 is missing; the first line's block is kept and
processing stops at the bad line. -/
theorem C5_missing_category_witness :
    processLines exColumns exTable exOptions
      (["10.0<--->20.0<--->1"] ++
        "1.0<--->2.0<--->5" :: ["30.0<--->40.0<--->2"]) none =
      ((processLines exColumns exTable exOptions
          ["10.0<--->20.0<--->1"] none).1,
       (processLines exColumns exTable exOptions
          ["10.0<--->20.0<--->1"] none).2.1,
       some PyError.keyError) :=
  @C5_missing_category exColumns exTable exOptions
    ["10.0<--->20.0<--->1"] ["30.0<--->40.0<--->2"] none "1.0" "2.0" 5
    "1.0<--->2.0<--->5" rfl (by decide) rfl rfl

/-- C6: a non-blank geometry line that does not split into at least three
fields, or whose third field is not integer-parseable, stops the run with
a fatal error at that line — no block is emitted for it or for any later
line, and the line is not skipped. -/
theorem C6_malformed_line {cols : List String}
    {table : List (Int × List String)} {opts : List (String × String)}
    {line : String} {post : List String} {v : Option String}
    (hne : line ≠ "")
    (hbad : ((splitFields line).get? 2).bind pyParseInt = none) :
    ∃ e, processLines cols table opts (line :: post) v =
      ([], v, some e) := by
  obtain ⟨e, he⟩ := parseFields_err hbad
  refine ⟨e, ?_⟩
  rw [processLines, if_neg hne]
  simp only [processLine, processValues, he]

/-- C6 witness: a two-field line is fatal. -/
theorem C6_malformed_line_witness :
    ∃ e, processLines exColumns exTable exOptions
      ("10.0<--->20.0" :: ["30.0<--->40.0<--->2"]) none =
      ([], none, some e) :=
  @C6_malformed_line exColumns exTable exOptions "10.0<--->20.0"
    ["30.0<--->40.0<--->2"] none (by decide) rfl

/-- C7: an option-backed label attribute (not a column name and none of
`east`, `north`, `text`) gets the same value in the blocks of any two
features of the same run — the option value after the
`ref` → `reference`, `rotate` → `rotation` remapping. -/
theorem C7_option_constant {cols row1 row2 : List String}
    {e1 n1 e2 n2 : String} {opts : List (String × String)}
    {v1 v2 : Option String} {block1 block2 : List (String × String)}
    {vf1 vf2 : Option String} {a : String}
    (ha : a ∈ label_attributes) (hc : a ∉ cols)
    (hne : a ≠ "east") (hnn : a ≠ "north") (hnt : a ≠ "text")
    (h1 : resolveLoop cols row1 e1 n1 opts label_attributes v1 =
      .ok (block1, vf1))
    (h2 : resolveLoop cols row2 e2 n2 opts label_attributes v2 =
      .ok (block2, vf2)) :
    block1.lookup a = opts.lookup (attributeOptionKey a) ∧
    block2.lookup a = opts.lookup (attributeOptionKey a) ∧
    block1.lookup a = block2.lookup a := by
  have l1 := resolveLoop_lookup_opt hc hne hnn hnt ha h1
  have l2 := resolveLoop_lookup_opt hc hne hnn hnt ha h2
  exact ⟨l1, l2, l1.trans l2.symm⟩

/-- C7 witness: `font` is identical in the blocks of the two features of
the concrete scenario and equals the `font` option. -/
theorem C7_option_constant_witness :
    exBlock.lookup "font" =
      exOptions.lookup (attributeOptionKey "font") ∧
    exBlock2.lookup "font" =
      exOptions.lookup (attributeOptionKey "font") ∧
    exBlock.lookup "font" = exBlock2.lookup "font" :=
  @C7_option_constant exColumns ["1", "treeA"] ["2", "oakB"] "10.0"
    "20.0" "30.0" "40.0" exOptions none (some "0") exBlock exBlock2
    (some "0") (some "0") "font"
    (by decide) (by decide) (by decide) (by decide) (by decide) rfl rfl

/-- C8: the stream loop mutates none of its inputs — after it completes,
the column-name list, the category-indexed table, the option mapping and
the geometry export text held in the state are unchanged, and the only
effect is that text has been appended to the output. -/
theorem C8_no_mutation (s : ProgState) :
    (mainLoop s).1.column_names = s.column_names ∧
    (mainLoop s).1.table = s.table ∧
    (mainLoop s).1.options = s.options ∧
    (mainLoop s).1.ascii = s.ascii ∧
    ∃ t, (mainLoop s).1.output = s.output ++ t := by
  rw [mainLoop]
  exact loopState_frame (splitlines s.ascii) s none

/-- C9: for a feature whose table has no `text`, `name` or `label`
column, the attribute loop still succeeds, and the value written on the
`text` line repeats the value just written for `rotate` (the loop
variable keeps its previous content). -/
theorem C9_text_stale {cols row : List String} {east north : String}
    {opts : List (String × String)} {v : Option String}
    (htext : "text" ∉ cols) (hname : "name" ∉ cols)
    (hlabel : "label" ∉ cols) (hrow : row.length = cols.length)
    (hopts : OptionsComplete opts) :
    ∃ block vf,
      resolveLoop cols row east north opts label_attributes v =
        .ok (block, vf) ∧
      block.lookup "text" = block.lookup "rotate" := by
  obtain ⟨block, vf, hok⟩ := resolveLoop_label_total hopts hrow v
  refine ⟨block, some vf, hok, ?_⟩
  have hsplit : label_attributes =
      ["east", "north", "xoffset", "yoffset", "ref", "font", "color",
       "size", "width", "hcolor", "hwidth", "background", "border",
       "opaque"] ++ "rotate" :: "text" :: ["reference", "rotation"] := rfl
  rw [hsplit] at hok
  exact resolveLoop_text_stale htext hname hlabel _ (by decide) (by decide)
    hok

/-- C9 witness: a table with only a `cat` column. -/
theorem C9_text_stale_witness :
    ∃ block vf,
      resolveLoop ["cat"] ["7"] "1.0" "2.0" exOptions label_attributes
        none = .ok (block, vf) ∧
      block.lookup "text" = block.lookup "rotate" :=
  @C9_text_stale ["cat"] ["7"] "1.0" "2.0" exOptions none
    (by decide) (by decide) (by decide) (by decide) (by decide)

theorem get?_take_of_lt {α : Type} (l : List α) (n i : Nat) (h : i < n) :
    (l.take n).get? i = l.get? i := by
  rw [List.get?_eq_getElem?, List.get?_eq_getElem?]
  exact List.getElem?_take_of_lt h

/-- C10: a non-blank line with more than three separator-delimited fields
is accepted — the field count raises no error, only the first three
fields are read, and the result is the one of the field list truncated to
its first three fields. -/
theorem C10_extra_fields {cols : List String}
    {table : List (Int × List String)} {opts : List (String × String)}
    {line : String} {v : Option String}
    (h : 3 < (splitFields line).length) :
    parseFields (splitFields line) ≠ .error PyError.indexError ∧
    processLine cols table opts line v =
      processValues cols table opts ((splitFields line).take 3) v := by
  have h0 := get?_take_of_lt (splitFields line) 3 0 (by omega)
  have h1 := get?_take_of_lt (splitFields line) 3 1 (by omega)
  have h2 := get?_take_of_lt (splitFields line) 3 2 (by omega)
  have hpf : parseFields ((splitFields line).take 3) =
      parseFields (splitFields line) := by
    rw [parseFields, parseFields, h0, h1, h2]
  constructor
  · obtain ⟨f0, hf0⟩ : ∃ x, (splitFields line).get? 0 = some x :=
      ⟨_, List.get?_eq_get (by omega)⟩
    obtain ⟨f1, hf1⟩ : ∃ x, (splitFields line).get? 1 = some x :=
      ⟨_, List.get?_eq_get (by omega)⟩
    obtain ⟨f2, hf2⟩ : ∃ x, (splitFields line).get? 2 = some x :=
      ⟨_, List.get?_eq_get (by omega)⟩
    intro hcontra
    rw [parseFields] at hcontra
    simp only [hf0, hf1, hf2] at hcontra
    cases hp : pyParseInt f2 with
    | none =>
      simp only [hp, Except.error.injEq] at hcontra
      exact PyError.noConfusion hcontra
    | some c =>
      simp only [hp] at hcontra
      exact Except.noConfusion hcontra
  · show processValues cols table opts (splitFields line) v = _
    rw [processValues, processValues, hpf]

/-- C10 witness: a four-field line behaves as its three-field
truncation. -/
theorem C10_extra_fields_witness :
    parseFields (splitFields "1.5<--->2.5<--->1<--->junk") ≠
      .error PyError.indexError ∧
    processLine exColumns exTable exOptions "1.5<--->2.5<--->1<--->junk"
        none =
      processValues exColumns exTable exOptions
        ((splitFields "1.5<--->2.5<--->1<--->junk").take 3) none :=
  @C10_extra_fields exColumns exTable exOptions
    "1.5<--->2.5<--->1<--->junk" none (by decide)

end VDbLabels
